import Mathlib

/-!
Shallow embedding of src/main.cpp of the Replorer utility, a Windows
Explorer restart tool, together with theorems settling the claims about
its specification.

Modelling conventions:
* A C wide string (wchar_t pointer) is a List Char holding its characters
  up to the terminator; a possibly null pointer is an Option (List Char),
  with none standing for a null pointer.
* On Windows a wchar_t is an unsigned 16 bit integer, so the C cast of a
  long to wchar_t is reduction modulo 65536.
* The call wcstol(hex, end, 16) on the two character buffer built at line
  65 of src/main.cpp is embedded by wcstol2 below, following the C
  standard semantics of wcstol: optional leading whitespace, an optional
  sign, an optional 0x introduction, then hexadecimal digits, with end
  set to the first character after the longest valid subject sequence.
* External OS state (the shell window collection, the process snapshot)
  is passed in as explicit data, and the observable OS calls made by the
  program (OpenProcess and TerminateProcess, ShellExecuteW, Sleep) are
  collected into an event trace.
-/

namespace Replorer

/-- Whitespace characters skipped by wcstol in the default C locale. -/
def isSpace (c : Char) : Bool :=
  c == ' ' || c == '\t' || c == '\n' || c == Char.ofNat 11 || c == Char.ofNat 12 || c == '\r'

/-- Hexadecimal digit test, the digits wcstol accepts with base 16: the
ASCII ranges 0 to 9, a to f and A to F, by character code. -/
def isHexDigit (c : Char) : Bool :=
  decide ((48 ≤ c.toNat ∧ c.toNat ≤ 57) ∨ (97 ≤ c.toNat ∧ c.toNat ≤ 102)
    ∨ (65 ≤ c.toNat ∧ c.toNat ≤ 70))

/-- Numeric value of a hexadecimal digit, by character code. -/
def hexVal (c : Char) : Nat :=
  if 48 ≤ c.toNat ∧ c.toNat ≤ 57 then c.toNat - 48
  else if 97 ≤ c.toNat ∧ c.toNat ≤ 102 then c.toNat - 87
  else if 65 ≤ c.toNat ∧ c.toNat ≤ 70 then c.toNat - 55
  else 0

/-- Result of wcstol(hex, end, 16) on the two character null terminated
buffer of src/main.cpp line 65, as some v exactly when the whole buffer
is consumed, that is when end lands on the terminator (the test of line
68). That happens when both characters are hexadecimal digits, or when
the first is whitespace or a sign and the second is a hexadecimal digit.
A 0x introduction needs a digit after it, so with only two characters it
never consumes the whole buffer. -/
def wcstol2 (c1 c2 : Char) : Option Int :=
  if isHexDigit c1 && isHexDigit c2 then some (16 * (hexVal c1 : Int) + hexVal c2)
  else if (isSpace c1 || c1 == '+') && isHexDigit c2 then some ((hexVal c2 : Int))
  else if c1 == '-' && isHexDigit c2 then some (-(hexVal c2 : Int))
  else none

/-- Comparison loop of startsWith, src/main.cpp lines 46 and 47, over null
free wide strings. -/
def startsWithGo : List Char → List Char → Bool
  | _, [] => true
  | [], _ :: _ => false
  | c :: s, d :: rest => if c = d then startsWithGo s rest else false

/-- The function startsWith of src/main.cpp lines 43 to 48; none models a
null pointer argument, which yields false. -/
def startsWith (s p : Option (List Char)) : Bool :=
  match s, p with
  | none, _ => false
  | some _, none => false
  | some s, some p => startsWithGo s p

/-- The one recognized local file scheme introduction, file:/// . -/
def fileScheme : List Char := "file:///".toList

/-- Decoding loop of urlToPath, src/main.cpp lines 62 to 73, run on the
input after the scheme has been skipped: a segment separator becomes the
native separator, a percent whose next two characters exist and are
consumed entirely by wcstol becomes the character with the parsed value
truncated to 16 bits (scanning advances past all three characters), and
any other character, a percent included, is copied unchanged with
scanning advancing by one character. -/
def decodeRemainder : List Char → List Char
  | [] => []
  | c :: rest =>
      if c = '/' then '\\' :: decodeRemainder rest
      else if c = '%' then
        match rest with
        | c1 :: c2 :: rest2 =>
            match wcstol2 c1 c2 with
            | some v => Char.ofNat ((v % 65536).toNat) :: decodeRemainder rest2
            | none => '%' :: decodeRemainder (c1 :: c2 :: rest2)
        | [c1] => '%' :: decodeRemainder [c1]
        | [] => '%' :: decodeRemainder []
      else c :: decodeRemainder rest

/-- The function urlToPath of src/main.cpp lines 57 to 75: a null input or
an input that does not start with the file:/// scheme yields the empty
string, otherwise the remainder after the 8 scheme characters is decoded. -/
def urlToPath : Option (List Char) → List Char
  | none => []
  | some url =>
      if startsWith (some url) (some fileScheme) then decodeRemainder (url.drop 8)
      else []

/-- Reference encoder for the round trip property of the spec, section 8.
Modelled from the spec: the spec describes the encoder only in words
(native separators to segment separators, reserved bytes to two hex digit
percent escapes); there is no encoder in the repository. The reserved
characters are the two characters the decoder treats specially, the
percent and the segment separator. -/
def reservedChar (c : Char) : Bool := c == '%' || c == '/'

/-- Upper case hexadecimal digit character of a value below 16. -/
def hexDigitChar (n : Nat) : Char :=
  if n < 10 then Char.ofNat (48 + n) else Char.ofNat (55 + n)

/-- Reference encoder for one character, following the words of the spec:
the native separator becomes the segment separator, a reserved byte
becomes a two hex digit percent escape, anything else is copied. -/
def encodeChar (c : Char) : List Char :=
  if c = '\\' then ['/']
  else if reservedChar c then ['%', hexDigitChar (c.toNat / 16), hexDigitChar (c.toNat % 16)]
  else [c]

/-- Reference encoder for a whole native path. -/
def encodePath (p : List Char) : List Char := p.flatMap encodeChar

/-- One window of the shell window collection as the enumeration loop of
collectOpenFolderPaths observes it at its index: whether the Item call of
line 100 produced an object, whether that object exposes IWebBrowserApp
(line 102), and the LocationURL string of line 104, none when the call
fails or yields a null BSTR. -/
structure ShellWindow where
  itemOk : Bool
  hasApp : Bool
  locationURL : Option (List Char)
  deriving DecidableEq

/-- Enumeration loop of collectOpenFolderPaths, src/main.cpp lines 95 to
114, with the output vector passed as the accumulator out: a window is
appended exactly when its object is obtained, exposes the browser
capability, returns a location string, and that string decodes to a non
empty path. -/
def collectLoop : List ShellWindow → List (List Char) → List (List Char)
  | [], out => out
  | w :: rest, out =>
      if w.itemOk then
        if w.hasApp then
          match w.locationURL with
          | some burl =>
              if (urlToPath (some burl)).isEmpty then collectLoop rest out
              else collectLoop rest (out ++ [urlToPath (some burl)])
          | none => collectLoop rest out
        else collectLoop rest out
      else collectLoop rest out

/-- The function collectOpenFolderPaths of src/main.cpp lines 83 to 119.
The Boolean swOk stands for the shell window collection being available
(CoCreateInstance and get_Count succeeding, lines 91 to 94); when it is
false the function leaves the cleared output empty. -/
def collectOpenFolderPaths (swOk : Bool) (ws : List ShellWindow) : List (List Char) :=
  if swOk then collectLoop ws [] else []

/-- Declarative per window form of the enumeration filter: the path of the
window entry the loop would append, none when the window is skipped. -/
def windowPath (w : ShellWindow) : Option (List Char) :=
  if w.itemOk then
    if w.hasApp then
      match w.locationURL with
      | some burl =>
          if (urlToPath (some burl)).isEmpty then none else some (urlToPath (some burl))
      | none => none
    else none
  else none

/-- One entry of the process snapshot: executable name, process id, and
whether OpenProcess with termination rights succeeds for it (line 134). -/
structure ProcessEntry where
  szExeFile : List Char
  th32ProcessID : Nat
  openOk : Bool
  deriving DecidableEq

/-- Lower casing of one character in the ASCII range, the effect of the
case insensitive comparison lstrcmpiW uses on executable names. -/
def charLower (c : Char) : Char :=
  if 65 ≤ c.toNat ∧ c.toNat ≤ 90 then Char.ofNat (c.toNat + 32) else c

/-- Case insensitive string equality, the test lstrcmpiW(a, b) == 0 of
src/main.cpp line 133. -/
def lstrcmpiEq (a b : List Char) : Bool := a.map charLower == b.map charLower

/-- The target executable name of src/main.cpp line 133. -/
def explorerExe : List Char := "explorer.exe".toList

/-- Observable actions of one run: the call markers for the capture and
reaper components, the OpenProcess attempt and the TerminateProcess call
of line 135, the ShellExecuteW open request of line 152 and the Sleep of
line 154. -/
inductive Event where
  | captureCall : Event
  | reaperCall : Event
  | openAttempt : Nat → Event
  | terminated : Nat → Event
  | openRequest : List Char → Event
  | pacingSleep : Nat → Event
  deriving DecidableEq

/-- Snapshot walk of killAllExplorer, src/main.cpp lines 131 to 138: for a
matching entry OpenProcess is attempted, and when it yields a handle the
process is terminated; non matching entries produce no action. -/
def killLoop : List ProcessEntry → List Event
  | [] => []
  | pe :: rest =>
      if lstrcmpiEq pe.szExeFile explorerExe then
        if pe.openOk then
          Event.openAttempt pe.th32ProcessID :: Event.terminated pe.th32ProcessID :: killLoop rest
        else Event.openAttempt pe.th32ProcessID :: killLoop rest
      else killLoop rest

/-- The function killAllExplorer of src/main.cpp lines 125 to 140. The
Boolean snapOk stands for CreateToolhelp32Snapshot and Process32FirstW
succeeding (lines 127 to 131); when it is false the function returns with
no action. -/
def killAllExplorer (snapOk : Bool) (snap : List ProcessEntry) : List Event :=
  if snapOk then killLoop snap else []

/-- The function reopenFolders of src/main.cpp lines 148 to 157: one open
request per path in order, each followed by the fixed 100 ms sleep. -/
def reopenFolders : List (List Char) → List Event
  | [] => []
  | p :: rest => Event.openRequest p :: Event.pacingSleep 100 :: reopenFolders rest

/-- The function wmain of src/main.cpp lines 174 to 189: capture the open
folder list, run the reaper, and when the captured list is non empty
replay it; the returned pair is the event trace of the run and the exit
code, which line 188 fixes to zero. -/
def wmain (swOk : Bool) (ws : List ShellWindow) (snapOk : Bool) (snap : List ProcessEntry) :
    List Event × Int :=
  (Event.captureCall :: Event.reaperCall ::
      (killAllExplorer snapOk snap ++
        (if (collectOpenFolderPaths swOk ws).isEmpty then []
         else reopenFolders (collectOpenFolderPaths swOk ws))),
    0)

/-- Path of an open request event, none for any other event. -/
def openReqPath : Event → Option (List Char)
  | .openRequest p => some p
  | _ => none

/-- Process id of an OpenProcess attempt event, none for any other event. -/
def attemptPid : Event → Option Nat
  | .openAttempt pid => some pid
  | _ => none

/-- Process id of an OpenProcess attempt or a TerminateProcess event. -/
def eventPid : Event → Option Nat
  | .openAttempt pid => some pid
  | .terminated pid => some pid
  | _ => none

/-! Helper lemmas about the path codec. -/

lemma startsWithGo_nil (s : List Char) : startsWithGo s [] = true := by
  cases s <;> rfl

lemma startsWithGo_self_append (p s : List Char) : startsWithGo (p ++ s) p = true := by
  induction p with
  | nil => exact startsWithGo_nil s
  | cons c rest ih => simpa [startsWithGo] using ih

lemma decode_sep (rest : List Char) :
    decodeRemainder ('/' :: rest) = '\\' :: decodeRemainder rest := by
  rw [decodeRemainder.eq_def]
  rfl

lemma decode_percent (c1 c2 : Char) (rest : List Char) :
    decodeRemainder ('%' :: c1 :: c2 :: rest) =
      match wcstol2 c1 c2 with
      | some v => Char.ofNat ((v % 65536).toNat) :: decodeRemainder rest
      | none => '%' :: decodeRemainder (c1 :: c2 :: rest) := by
  rw [decodeRemainder.eq_def]
  rfl

lemma decode_other (c : Char) (rest : List Char) (h1 : c ≠ '/') (h2 : c ≠ '%') :
    decodeRemainder (c :: rest) = c :: decodeRemainder rest := by
  rw [decodeRemainder.eq_def]
  simp only [if_neg h1, if_neg h2]

lemma decode_percent_some (c1 c2 : Char) (v : Int) (rest : List Char)
    (h : wcstol2 c1 c2 = some v) :
    decodeRemainder ('%' :: c1 :: c2 :: rest)
      = Char.ofNat ((v % 65536).toNat) :: decodeRemainder rest := by
  rw [decode_percent, h]

lemma decode_percent_none (c1 c2 : Char) (rest : List Char) (h : wcstol2 c1 c2 = none) :
    decodeRemainder ('%' :: c1 :: c2 :: rest) = '%' :: decodeRemainder (c1 :: c2 :: rest) := by
  rw [decode_percent, h]

lemma hexVal_lt (c : Char) : hexVal c < 16 := by
  unfold hexVal
  split_ifs <;> omega

lemma wcstol2_hex (c1 c2 : Char) (h1 : isHexDigit c1 = true) (h2 : isHexDigit c2 = true) :
    wcstol2 c1 c2 = some (16 * (hexVal c1 : Int) + hexVal c2) := by
  simp [wcstol2, h1, h2]

lemma wcstol2_space_sign (c1 c2 : Char) (h1 : (isSpace c1 || c1 == '+') = true)
    (h2 : isHexDigit c2 = true) : wcstol2 c1 c2 = some ((hexVal c2 : Int)) := by
  have hco : c1.toNat = 32 ∨ c1.toNat = 9 ∨ c1.toNat = 10 ∨ c1.toNat = 11 ∨ c1.toNat = 12
      ∨ c1.toNat = 13 ∨ c1.toNat = 43 := by
    have hs := h1
    simp only [isSpace, Bool.or_eq_true, beq_iff_eq] at hs
    rcases hs with (((((h | h) | h) | h) | h) | h) | h <;> subst h <;> decide
  have hx : isHexDigit c1 = false := by
    simp only [isHexDigit, decide_eq_false_iff_not]
    rcases hco with h | h | h | h | h | h | h <;> omega
  simp [wcstol2, hx, h1, h2]

lemma wcstol2_minus (c2 : Char) (h2 : isHexDigit c2 = true) :
    wcstol2 '-' c2 = some (-(hexVal c2 : Int)) := by
  have d1 : isHexDigit '-' = false := by decide
  have d2 : isSpace '-' = false := by decide
  have d3 : ('-' == '+') = false := by decide
  simp [wcstol2, d1, d2, d3, h2]

lemma encodeChar_plain (c : Char) (hb : c ≠ '\\') (hr : reservedChar c = false) :
    encodeChar c = [c] := by
  unfold encodeChar
  rw [if_neg hb, if_neg (by simp [hr])]

lemma decode_encodePath (p : List Char) (h : ∀ c ∈ p, reservedChar c = false) :
    decodeRemainder (encodePath p) = p := by
  induction p with
  | nil => rfl
  | cons c rest ih =>
      have hc : reservedChar c = false := h c (List.mem_cons_self c rest)
      have hrest : ∀ x ∈ rest, reservedChar x = false := fun x hx => h x (List.mem_cons_of_mem c hx)
      have hcons : encodePath (c :: rest) = encodeChar c ++ encodePath rest := rfl
      by_cases hb : c = '\\'
      · subst hb
        rw [hcons, show encodeChar '\\' = ['/'] from by decide]
        show decodeRemainder ('/' :: encodePath rest) = '\\' :: rest
        rw [decode_sep, ih hrest]
      · have h1 : c ≠ '%' := by
          intro he
          subst he
          exact absurd hc (by decide)
        have h2 : c ≠ '/' := by
          intro he
          subst he
          exact absurd hc (by decide)
        rw [hcons, encodeChar_plain c hb hc]
        show decodeRemainder (c :: encodePath rest) = c :: rest
        rw [decode_other c _ h2 h1, ih hrest]

/-! Claims about the path codec. -/

/-- Claim C2, counterexample: the input file:///%+5 carries a malformed
percent sequence (the plus sign is not a hexadecimal digit), yet the
codec does not copy the percent and the following characters through
unchanged; wcstol accepts the sign, so the sequence is decoded to the
character with code 5. This refutes the sentence that only two hex digit
sequences are ever decoded. -/
theorem claim2_counterexample :
    isHexDigit '+' = false
    ∧ urlToPath (some ("file:///%+5".toList)) = [Char.ofNat 5]
    ∧ urlToPath (some ("file:///%+5".toList)) ≠ "%+5".toList := by
  refine ⟨by decide, by decide, by decide⟩

/-- Claim C2 as amended: a percent followed by two hexadecimal digits is
decoded to the character with that code; a percent whose two following
characters are not consumed entirely by wcstol is copied through with
scanning resuming at the next character; and additionally (this is what
the original claim missed) wcstol also consumes the buffer when it holds
whitespace or a plus sign before one hexadecimal digit, decoded to that
digit value, or a minus sign before one hexadecimal digit, decoded to the
negated value truncated to 16 bits. -/
theorem claim2_amended_decode (c1 c2 : Char) (rest : List Char) :
    (isHexDigit c1 = true → isHexDigit c2 = true →
      decodeRemainder ('%' :: c1 :: c2 :: rest)
        = Char.ofNat (16 * hexVal c1 + hexVal c2) :: decodeRemainder rest)
    ∧ (wcstol2 c1 c2 = none →
      decodeRemainder ('%' :: c1 :: c2 :: rest) = '%' :: decodeRemainder (c1 :: c2 :: rest))
    ∧ ((isSpace c1 || c1 == '+') = true → isHexDigit c2 = true →
      decodeRemainder ('%' :: c1 :: c2 :: rest)
        = Char.ofNat (hexVal c2) :: decodeRemainder rest)
    ∧ (c1 = '-' → isHexDigit c2 = true →
      decodeRemainder ('%' :: c1 :: c2 :: rest)
        = Char.ofNat ((65536 - hexVal c2) % 65536) :: decodeRemainder rest) := by
  have b1 := hexVal_lt c1
  have b2 := hexVal_lt c2
  refine ⟨fun h1 h2 => ?_, fun hn => ?_, fun hs h2 => ?_, fun hm h2 => ?_⟩
  · rw [decode_percent_some c1 c2 _ rest (wcstol2_hex c1 c2 h1 h2)]
    congr 2
    omega
  · exact decode_percent_none c1 c2 rest hn
  · rw [decode_percent_some c1 c2 _ rest (wcstol2_space_sign c1 c2 hs h2)]
    congr 2
    omega
  · subst hm
    rw [decode_percent_some '-' c2 _ rest (wcstol2_minus c2 h2)]
    congr 2
    omega

/-- Claim C5: an input that does not begin with the file:/// scheme, a
null input included, yields the empty result; the function is total, so
nothing is thrown or aborted. -/
theorem claim5_non_local_scheme :
    (∀ u : List Char, startsWithGo u fileScheme = false → urlToPath (some u) = [])
    ∧ urlToPath none = [] := by
  refine ⟨fun u hu => ?_, rfl⟩
  have hb : ¬ (startsWith (some u) (some fileScheme) = true) := by
    have hv : startsWith (some u) (some fileScheme) = false := hu
    simp [hv]
  show (if startsWith (some u) (some fileScheme) = true
      then decodeRemainder (u.drop 8) else []) = []
  rw [if_neg hb]

/-- Claim C8: round trip of the reference encoder and the codec, for any
native path free of reserved characters. -/
theorem claim8_round_trip (p : List Char) (h : ∀ c ∈ p, reservedChar c = false) :
    urlToPath (some (fileScheme ++ encodePath p)) = p := by
  have hs : startsWith (some (fileScheme ++ encodePath p)) (some fileScheme) = true :=
    startsWithGo_self_append fileScheme (encodePath p)
  show (if startsWith (some (fileScheme ++ encodePath p)) (some fileScheme) = true
      then decodeRemainder ((fileScheme ++ encodePath p).drop 8) else []) = p
  rw [if_pos hs, show (fileScheme ++ encodePath p).drop 8 = encodePath p from rfl,
    decode_encodePath p h]

/-- Claim C8, witness: the round trip at the concrete native path
C:\Users\A, whose encoding is file:///C:/Users/A. -/
theorem claim8_round_trip_witness :
    urlToPath (some (fileScheme ++ encodePath ("C:\\Users\\A".toList))) = "C:\\Users\\A".toList :=
  claim8_round_trip ("C:\\Users\\A".toList) (by decide)

/-- Claim C9: the codec is a total deterministic function, defined for a
null input as well, and absence of a path is signaled by the empty
string; totality and purity hold by construction, since urlToPath is a
Lean function. -/
theorem claim9_pure_total_function :
    (∀ url : Option (List Char), ∃ out : List Char, urlToPath url = out)
    ∧ (∀ u1 u2 : Option (List Char), u1 = u2 → urlToPath u1 = urlToPath u2)
    ∧ urlToPath none = [] :=
  ⟨fun url => ⟨urlToPath url, rfl⟩, fun u1 u2 h => by rw [h], rfl⟩

/-- Claim C10: decoding is single pass; the character a percent sequence
produces is appended verbatim and scanning continues after the consumed
sequence, so the decoded character is never reinterpreted: %2F yields the
literal segment separator character in the output, not the native
separator, and %252F yields the literal text %2F. -/
theorem claim10_single_pass :
    (∀ (c1 c2 : Char) (v : Int) (rest : List Char), wcstol2 c1 c2 = some v →
      decodeRemainder ('%' :: c1 :: c2 :: rest)
        = Char.ofNat ((v % 65536).toNat) :: decodeRemainder rest)
    ∧ urlToPath (some ("file:///a%2Fb".toList)) = "a/b".toList
    ∧ urlToPath (some ("file:///%252F".toList)) = "%2F".toList :=
  ⟨fun c1 c2 v rest h => decode_percent_some c1 c2 v rest h, by decide, by decide⟩

/-! Helper lemmas about the window enumerator, the process reaper and the
folder replay. -/

lemma collectLoop_eq (ws : List ShellWindow) :
    ∀ out, collectLoop ws out = out ++ ws.filterMap windowPath := by
  induction ws with
  | nil => intro out; simp [collectLoop]
  | cons w rest ih =>
      intro out
      rcases w with ⟨io, ha, loc⟩
      cases io
      · simp [collectLoop, windowPath, ih]
      · cases ha
        · simp [collectLoop, windowPath, ih]
        · cases loc with
          | none => simp [collectLoop, windowPath, ih]
          | some burl =>
              by_cases hp : (urlToPath (some burl)).isEmpty
              · simp [collectLoop, windowPath, hp, ih]
              · simp [collectLoop, windowPath, hp, ih]

lemma killLoop_attempts (snap : List ProcessEntry) :
    (killLoop snap).filterMap attemptPid
      = (snap.filter (fun pe => lstrcmpiEq pe.szExeFile explorerExe)).map
          ProcessEntry.th32ProcessID := by
  induction snap with
  | nil => rfl
  | cons pe rest ih =>
      by_cases hm : lstrcmpiEq pe.szExeFile explorerExe
      · cases ho : pe.openOk <;>
          simp [killLoop, hm, ho, attemptPid, List.filter_cons, ih]
      · simp [killLoop, hm, List.filter_cons, ih]

lemma killLoop_mem (snap : List ProcessEntry) :
    ∀ e ∈ killLoop snap, ∃ pe, pe ∈ snap ∧ lstrcmpiEq pe.szExeFile explorerExe = true
      ∧ eventPid e = some pe.th32ProcessID := by
  induction snap with
  | nil => intro e he; simp [killLoop] at he
  | cons pe rest ih =>
      intro e he
      by_cases hm : lstrcmpiEq pe.szExeFile explorerExe
      · cases ho : pe.openOk <;> rw [killLoop] at he <;> simp [hm, ho] at he
        · rcases he with he | he
          · exact ⟨pe, by simp, hm, by simp [he, eventPid]⟩
          · rcases ih e he with ⟨q, hq, hqm, hqe⟩
            exact ⟨q, by simp [hq], hqm, hqe⟩
        · rcases he with he | he | he
          · exact ⟨pe, by simp, hm, by simp [he, eventPid]⟩
          · exact ⟨pe, by simp, hm, by simp [he, eventPid]⟩
          · rcases ih e he with ⟨q, hq, hqm, hqe⟩
            exact ⟨q, by simp [hq], hqm, hqe⟩
      · rw [killLoop] at he
        simp [hm] at he
        rcases ih e he with ⟨q, hq, hqm, hqe⟩
        exact ⟨q, by simp [hq], hqm, hqe⟩

lemma killLoop_shape (snap : List ProcessEntry) :
    ∀ e ∈ killLoop snap, (∃ pid, e = Event.openAttempt pid) ∨ ∃ pid, e = Event.terminated pid := by
  intro e he
  rcases killLoop_mem snap e he with ⟨pe, _, _, hpe⟩
  cases e <;> simp [eventPid] at hpe <;> simp

lemma reopenFolders_flatMap (ps : List (List Char)) :
    reopenFolders ps = ps.flatMap (fun p => [Event.openRequest p, Event.pacingSleep 100]) := by
  induction ps with
  | nil => rfl
  | cons p rest ih => simp [reopenFolders, ih]

lemma reopenFolders_shape (ps : List (List Char)) :
    ∀ e ∈ reopenFolders ps, (∃ p, e = Event.openRequest p) ∨ e = Event.pacingSleep 100 := by
  intro e he
  induction ps with
  | nil => simp [reopenFolders] at he
  | cons p rest ih =>
      rw [reopenFolders] at he
      simp at he
      rcases he with he | he | he
      · exact Or.inl ⟨p, he⟩
      · exact Or.inr he
      · exact ih he

lemma reopenFolders_requests (ps : List (List Char)) :
    (reopenFolders ps).filterMap openReqPath = ps := by
  induction ps with
  | nil => rfl
  | cons p rest ih => simp [reopenFolders, openReqPath, ih]

lemma killAll_events (snapOk : Bool) (snap : List ProcessEntry) :
    ∀ e ∈ killAllExplorer snapOk snap,
      (∃ pid, e = Event.openAttempt pid) ∨ ∃ pid, e = Event.terminated pid := by
  intro e he
  unfold killAllExplorer at he
  cases snapOk
  · simp at he
  · exact killLoop_shape snap e (by simpa using he)

lemma killAll_no_request (snapOk : Bool) (snap : List ProcessEntry) :
    ∀ e ∈ killAllExplorer snapOk snap, openReqPath e = none := by
  intro e he
  rcases killAll_events snapOk snap e he with ⟨pid, h⟩ | ⟨pid, h⟩ <;> subst h <;> rfl

lemma tail_shape (swOk : Bool) (ws : List ShellWindow) (snapOk : Bool) (snap : List ProcessEntry) :
    ∀ e ∈ killAllExplorer snapOk snap ++
        (if (collectOpenFolderPaths swOk ws).isEmpty then []
         else reopenFolders (collectOpenFolderPaths swOk ws)),
      e ≠ Event.reaperCall ∧ e ≠ Event.captureCall := by
  intro e he
  rcases List.mem_append.mp he with h | h
  · rcases killAll_events snapOk snap e h with ⟨pid, h⟩ | ⟨pid, h⟩ <;> subst h <;> simp
  · by_cases hc : (collectOpenFolderPaths swOk ws).isEmpty
    · rw [if_pos hc] at h
      simp at h
    · rw [if_neg hc] at h
      rcases reopenFolders_shape _ e h with ⟨p, h⟩ | h <;> subst h <;> simp

/-! Claims about the window enumerator, the process reaper and the
orchestrator. -/

/-- Claim C1: over any run, the open requests issued are exactly the
captured folder paths, one per path and in capture order, so an empty
captured list issues zero open requests and a list of N paths issues
exactly N; and the folder replay emits the fixed 100 ms pacing sleep
after each request, hence between any two consecutive requests. -/
theorem claim1_replay_requests (swOk : Bool) (ws : List ShellWindow) (snapOk : Bool)
    (snap : List ProcessEntry) :
    (wmain swOk ws snapOk snap).1.filterMap openReqPath = collectOpenFolderPaths swOk ws
    ∧ ∀ ps : List (List Char),
        reopenFolders ps = ps.flatMap (fun p => [Event.openRequest p, Event.pacingSleep 100]) := by
  refine ⟨?_, reopenFolders_flatMap⟩
  show (Event.captureCall :: Event.reaperCall ::
      (killAllExplorer snapOk snap ++
        (if (collectOpenFolderPaths swOk ws).isEmpty then []
         else reopenFolders (collectOpenFolderPaths swOk ws)))).filterMap openReqPath
    = collectOpenFolderPaths swOk ws
  rw [List.filterMap_cons_none rfl, List.filterMap_cons_none rfl, List.filterMap_append]
  rw [List.filterMap_eq_nil_iff.mpr (killAll_no_request snapOk snap), List.nil_append]
  by_cases hc : (collectOpenFolderPaths swOk ws).isEmpty
  · rw [if_pos hc]
    rw [List.isEmpty_iff] at hc
    rw [hc]
    rfl
  · rw [if_neg hc, reopenFolders_requests]

/-- Claim C3: the enumerator output is the in order filter map of the
window collection, so it has an entry exactly for the windows whose
location is present and decodes to a non empty path, in enumeration index
order; windows with a missing object, a missing browser capability, an
absent location, or a location that decodes to the empty path contribute
no entry. -/
theorem claim3_enumerator_filter (ws : List ShellWindow) :
    collectOpenFolderPaths true ws = ws.filterMap windowPath
    ∧ (∀ w : ShellWindow, w.itemOk = false ∨ w.hasApp = false ∨ w.locationURL = none →
        windowPath w = none)
    ∧ (∀ (w : ShellWindow) (u : List Char), w.locationURL = some u → urlToPath (some u) = [] →
        windowPath w = none)
    ∧ (∀ (w : ShellWindow) (u : List Char), w.locationURL = some u → w.itemOk = true →
        w.hasApp = true → urlToPath (some u) ≠ [] →
        windowPath w = some (urlToPath (some u))) := by
  refine ⟨?_, ?_, ?_, ?_⟩
  · show (if true = true then collectLoop ws [] else []) = ws.filterMap windowPath
    rw [if_pos rfl, collectLoop_eq ws [], List.nil_append]
  · intro w hw
    rcases hw with h | h | h <;> simp [windowPath, h]
  · intro w u hu hp
    simp [windowPath, hu, hp]
  · intro w u hu hio hha hne
    cases hq : urlToPath (some u) with
    | nil => exact absurd hq hne
    | cons a l => simp [windowPath, hu, hio, hha, hq]

/-- Claim C4: over any process snapshot, the reaper attempts an OpenProcess
with termination rights exactly once per entry whose executable name
matches the target case insensitively, in snapshot order, and every open
or terminate action it performs belongs to a matching entry, so non
matching entries are not touched; the match is case insensitive, for
example EXPLORER.EXE matches explorer.exe. -/
theorem claim4_reaper_matches (snap : List ProcessEntry) :
    (killAllExplorer true snap).filterMap attemptPid
      = (snap.filter (fun pe => lstrcmpiEq pe.szExeFile explorerExe)).map
          ProcessEntry.th32ProcessID
    ∧ (∀ e ∈ killAllExplorer true snap, ∃ pe, pe ∈ snap
        ∧ lstrcmpiEq pe.szExeFile explorerExe = true ∧ eventPid e = some pe.th32ProcessID)
    ∧ lstrcmpiEq ("EXPLORER.EXE".toList) ("explorer.exe".toList) = true := by
  refine ⟨?_, ?_, by decide⟩
  · show (killLoop snap).filterMap attemptPid = _
    exact killLoop_attempts snap
  · intro e he
    exact killLoop_mem snap e (by simpa [killAllExplorer] using he)

/-- Claim C6: in every run, a single reaper invocation appears in the
trace, placed after the capture call and before every open request, also
when the captured list is empty. -/
theorem claim6_terminate_once (swOk : Bool) (ws : List ShellWindow) (snapOk : Bool)
    (snap : List ProcessEntry) :
    (wmain swOk ws snapOk snap).1.count Event.reaperCall = 1
    ∧ ∃ i, (wmain swOk ws snapOk snap).1.get? i = some Event.reaperCall
        ∧ (∀ j, (wmain swOk ws snapOk snap).1.get? j = some Event.captureCall → j < i)
        ∧ (∀ j p, (wmain swOk ws snapOk snap).1.get? j = some (Event.openRequest p) → i < j) := by
  have hsh := tail_shape swOk ws snapOk snap
  constructor
  · have hnot : Event.reaperCall ∉ killAllExplorer snapOk snap ++
        (if (collectOpenFolderPaths swOk ws).isEmpty then []
         else reopenFolders (collectOpenFolderPaths swOk ws)) := by
      intro hmem
      exact absurd rfl (hsh Event.reaperCall hmem).1
    show (Event.captureCall :: Event.reaperCall ::
        (killAllExplorer snapOk snap ++
          (if (collectOpenFolderPaths swOk ws).isEmpty then []
           else reopenFolders (collectOpenFolderPaths swOk ws)))).count Event.reaperCall = 1
    rw [List.count_cons, List.count_cons, List.count_eq_zero.mpr hnot]
    rfl
  · refine ⟨1, rfl, fun j hj => ?_, fun j p hj => ?_⟩
    · rcases j with _ | _ | n
      · exact Nat.zero_lt_one
      · simp [wmain] at hj
      · have hm : Event.captureCall ∈ killAllExplorer snapOk snap ++
            (if (collectOpenFolderPaths swOk ws).isEmpty then []
             else reopenFolders (collectOpenFolderPaths swOk ws)) := List.get?_mem hj
        exact absurd rfl (hsh Event.captureCall hm).2
    · rcases j with _ | _ | n
      · simp [wmain] at hj
      · simp [wmain] at hj
      · omega

/-- Claim C7: every run returns the single fixed success exit code zero,
whatever the outcome of the capture, the termination and the replay
stages; termination in the DONE state is the totality of wmain, which
holds by construction. -/
theorem claim7_exit_success (swOk : Bool) (ws : List ShellWindow) (snapOk : Bool)
    (snap : List ProcessEntry) :
    (wmain swOk ws snapOk snap).2 = 0 := rfl
